import Mathlib

/-!
Verification of the script-to-speech text normalizer and segmenter of the
CloneIA repository (`src/core/text.py`, `src/core/utils.py`).

Strings are modelled as `List Char`.  Python's `re.sub` passes are modelled
as left-to-right, non-overlapping, maximal-munch scans (for the patterns in
the source, greedy matching never needs backtracking, so maximal munch is
exact).  The segmenter `TextProcessor.parse_script` is modelled as a fold of
a step function over the (stripped, blank-skipped) lines of the script.
-/

abbrev Str := List Char

/-- Python whitespace (`str.strip`, `\s`) restricted to the ASCII range. -/
def isPySpace (c : Char) : Bool :=
  c = ' ' || c = '\t' || c = '\n' || c = '\r' || c = '\x0b' || c = '\x0c'

/-- ASCII decimal digit, Python regex `\d` on ASCII input. -/
def isDigitC (c : Char) : Bool :=
  '0' ≤ c && c ≤ '9'

/-- Python `str.strip()`: remove leading and trailing whitespace. -/
def pyStrip (s : Str) : Str :=
  ((s.dropWhile isPySpace).reverse.dropWhile isPySpace).reverse

/-- Python `str.split('\n')`. -/
def splitLines (s : Str) : List Str :=
  s.splitOn '\n'

/-- Python `re.match(r'^\d+\.\s+', line)`: one or more digits, a period,
then at least one whitespace character.  (`\d+` never needs backtracking
here since a digit is not a period.) -/
def isNumbered (l : Str) : Bool :=
  let ds := l.takeWhile isDigitC
  decide (ds ≠ []) &&
    (match l.drop ds.length with
     | '.' :: c :: _ => isPySpace c
     | _ => false)

/-- A news item under construction: `{'title': line, 'content': []}`. -/
structure NewsItem where
  title : Str
  content : List Str
deriving DecidableEq, Repr

/-- The `current_section` variable of `parse_script`. -/
inductive Sec
  | intro
  | news
  | outro
deriving DecidableEq, Repr

/-- The loop state of `parse_script`: the three section buffers, the
`current_section` cursor and the open item `current_news`. -/
structure SegState where
  introLines : List Str
  newsItems : List NewsItem
  outroLines : List Str
  sec : Sec
  cur : Option NewsItem
deriving DecidableEq, Repr

def initState : SegState :=
  ⟨[], [], [], Sec.intro, none⟩

/-- One iteration of the `for line in lines` loop of `parse_script`
(`src/core/text.py` lines 133–154), including the per-line strip and the
blank-line skip. -/
def segStep (st : SegState) (raw : Str) : SegState :=
  let line := pyStrip raw
  if line = [] then st
  else if isNumbered line then
    { st with sec := Sec.news,
              newsItems := st.newsItems ++
                (match st.cur with | some c => [c] | none => []),
              cur := some ⟨line, []⟩ }
  else
    match st.sec, st.cur with
    | Sec.news, some c =>
        if 2 ≤ st.newsItems.length ∧ c.content = [] then
          { st with sec := Sec.outro, outroLines := st.outroLines ++ [line] }
        else
          { st with cur := some ⟨c.title, c.content ++ [line]⟩ }
    | Sec.intro, _ => { st with introLines := st.introLines ++ [line] }
    | _, _ => { st with outroLines := st.outroLines ++ [line] }

/-- The three pre-rewrite sections of a parsed script (the `original` field
of the dictionary returned by `parse_script`). -/
structure ParsedOrig where
  intro : List Str
  items : List NewsItem
  outro : List Str
deriving DecidableEq, Repr

/-- `src/core/text.py` lines 156–158: after the walk, the still-open item is
appended only when its body is non-empty. -/
def finalizeItems (st : SegState) : List NewsItem :=
  st.newsItems ++
    (match st.cur with
     | some c => if c.content = [] then [] else [c]
     | none => [])

/-- The line walk of `parse_script` on an explicit list of raw lines. -/
def parseLines (ls : List Str) : ParsedOrig :=
  let st := ls.foldl segStep initState
  ⟨st.introLines, finalizeItems st, st.outroLines⟩

/-- `TextProcessor.parse_script`, section-splitting part:
`script_content.strip().split('\n')` followed by the line walk. -/
def parseScript (s : Str) : ParsedOrig :=
  parseLines (splitLines (pyStrip s))

example :
    parseScript ("1. A\nb\n2. B\nc\n3. C\nc3\nmore".toList) =
      ⟨[], [⟨"1. A".toList, ["b".toList]⟩, ⟨"2. B".toList, ["c".toList]⟩],
       ["c3".toList, "more".toList]⟩ := by
  decide

example :
    parseScript ("hi\n\n1. A\nbody".toList) =
      ⟨["hi".toList], [⟨"1. A".toList, ["body".toList]⟩], []⟩ := by
  decide

/-! ## The rewriter (`TextProcessor.optimize_for_speech` and `optimize_text`)

Each `re.sub` pass is modelled as a left-to-right scan with maximal-munch
matching, resuming after the consumed match (for the source's patterns,
greedy matching never backtracks, so this is exact).  Scans whose resume
point is not a structural subterm take a fuel argument; the wrapper passes
the string length, which suffices because every match consumes at least one
character. -/

/-- Python `str.lower` character-wise, for ASCII plus the accented letters
appearing in the rule tables. -/
def toLowerPy (c : Char) : Char :=
  if 'A' ≤ c ∧ c ≤ 'Z' then Char.ofNat (c.toNat + 32)
  else if c = 'Á' then 'á' else if c = 'Â' then 'â' else if c = 'Ã' then 'ã'
  else if c = 'É' then 'é' else if c = 'Ê' then 'ê' else if c = 'Í' then 'í'
  else if c = 'Ó' then 'ó' else if c = 'Ô' then 'ô' else if c = 'Õ' then 'õ'
  else if c = 'Ú' then 'ú' else if c = 'Ç' then 'ç'
  else c

/-- Python `str.upper` character-wise, for ASCII plus the accented letters
appearing in the rule tables. -/
def upperPy (c : Char) : Char :=
  if 'a' ≤ c ∧ c ≤ 'z' then Char.ofNat (c.toNat - 32)
  else if c = 'á' then 'Á' else if c = 'â' then 'Â' else if c = 'ã' then 'Ã'
  else if c = 'é' then 'É' else if c = 'ê' then 'Ê' else if c = 'í' then 'Í'
  else if c = 'ó' then 'Ó' else if c = 'ô' then 'Ô' else if c = 'õ' then 'Õ'
  else if c = 'ú' then 'Ú' else if c = 'ç' then 'Ç'
  else c

/-- Python regex `\w` on the characters that occur in the source's inputs
and rule tables: ASCII alphanumerics, underscore, and accented Latin
letters. -/
def isWordChar (c : Char) : Bool :=
  ('a' ≤ c && c ≤ 'z') || ('A' ≤ c && c ≤ 'Z') || ('0' ≤ c && c ≤ '9') ||
  c = '_' ||
  c = 'á' || c = 'â' || c = 'ã' || c = 'é' || c = 'ê' || c = 'í' || c = 'ó' ||
  c = 'ô' || c = 'õ' || c = 'ú' || c = 'ç' ||
  c = 'Á' || c = 'Â' || c = 'Ã' || c = 'É' || c = 'Ê' || c = 'Í' || c = 'Ó' ||
  c = 'Ô' || c = 'Õ' || c = 'Ú' || c = 'Ç'

/-- `prefOf p s` : `p` is a (case-sensitive) prefix of `s`. -/
def prefOf : Str → Str → Bool
  | [], _ => true
  | _ :: _, [] => false
  | p :: ps, c :: cs => if p = c then prefOf ps cs else false

/-- Case-insensitive prefix test (Python `re.IGNORECASE` literal match). -/
def prefOfCI : Str → Str → Bool
  | [], _ => true
  | _ :: _, [] => false
  | p :: ps, c :: cs => if toLowerPy c = toLowerPy p then prefOfCI ps cs else false

/-- Case-insensitively strip `p` from the front of `s`, returning the rest. -/
def stripCI : Str → Str → Option Str
  | [], s => some s
  | _ :: _, [] => none
  | p :: ps, c :: cs => if toLowerPy c = toLowerPy p then stripCI ps cs else none

/-- `re.sub(r'[!?]', '', s)` : drop every `!` and `?`. -/
def removeBang (s : Str) : Str :=
  s.filter fun c => !(c = '!' || c = '?')

/-- `re.sub(r'\.{3,}', '', s)` : delete every maximal run of three or more
periods.  `pending` counts the periods read but not yet emitted. -/
def remEllAux : Nat → Str → Str
  | pending, [] => if 3 ≤ pending then [] else List.replicate pending '.'
  | pending, c :: rest =>
    if c = '.' then remEllAux (pending + 1) rest
    else
      (if 3 ≤ pending then [] else List.replicate pending '.') ++
        c :: remEllAux 0 rest

def removeEllipsis (s : Str) : Str :=
  remEllAux 0 s

/-- `re.sub(r'[;:]', ' ', s)` : semicolons and colons become spaces. -/
def semiColonSub (s : Str) : Str :=
  s.map fun c => if c = ';' || c = ':' then ' ' else c

/-- `re.sub(w + r'\s+', ' ', s)` for a single character `w` (used with `,`
and `.`): the separator plus the following maximal whitespace run is
replaced by one space.  `sk = true` while consuming the matched run. -/
def sepSpaceAux (w : Char) : Bool → Str → Str
  | _, [] => []
  | sk, c :: rest =>
    if sk && isPySpace c then sepSpaceAux w true rest
    else if c = w && (match rest with | d :: _ => isPySpace d | [] => false) then
      ' ' :: sepSpaceAux w true rest
    else c :: sepSpaceAux w false rest

/-- `re.sub(r',\s+', ' ', s)`. -/
def commaSpaceSub (s : Str) : Str :=
  sepSpaceAux ',' false s

/-- `re.sub(r'\.\s+', ' ', s)`. -/
def periodSpaceSub (s : Str) : Str :=
  sepSpaceAux '.' false s

/-- `re.sub(r'(\d),(\d)', r'\1\2', s)` : delete a comma between two digits;
scanning resumes after the second digit, exactly as `re.sub` does. -/
def digitCommaSub : Str → Str
  | d1 :: c :: d2 :: rest =>
    if c = ',' && isDigitC d1 && isDigitC d2 then d1 :: d2 :: digitCommaSub rest
    else d1 :: digitCommaSub (c :: d2 :: rest)
  | c :: rest => c :: digitCommaSub rest
  | [] => []

/-- The punctuation-thinning stage of `optimize_for_speech`
(`src/core/text.py` lines 83–92), the six `re.sub` passes in source
order. -/
def punctThin (s : Str) : Str :=
  digitCommaSub (periodSpaceSub (commaSpaceSub (semiColonSub
    (removeEllipsis (removeBang s)))))

/-- Match the greeting pattern `w1\s+w2\s+…` case-insensitively at the
front of `s`, returning the remaining suffix on success. -/
def matchWordsCI : List Str → Str → Option Str
  | [], s => some s
  | [w], s => stripCI w s
  | w :: w2 :: ws, s =>
    match stripCI w s with
    | none => none
    | some rest =>
      match rest with
      | d :: _ =>
        if isPySpace d then matchWordsCI (w2 :: ws) (rest.dropWhile isPySpace)
        else none
      | [] => none

/-- One `re.sub(pattern, rep, s, flags=re.IGNORECASE)` pass for a greeting
pattern (literal words joined by `\s+`). -/
def greetingSubAux (ws : List Str) (rep : Str) : Nat → Str → Str
  | _, [] => []
  | 0, s => s
  | fuel + 1, c :: rest =>
    match matchWordsCI ws (c :: rest) with
    | some rem =>
      if rem.length ≤ rest.length then rep ++ greetingSubAux ws rep fuel rem
      else c :: greetingSubAux ws rep fuel rest
    | none => c :: greetingSubAux ws rep fuel rest

def greetingSub (ws : List Str) (rep : Str) (s : Str) : Str :=
  greetingSubAux ws rep s.length s

/-- The `greeting_patterns` table of `TextProcessor.__init__`. -/
def greetingPatterns : List (List Str × Str) :=
  [ (["e".toList, "aí".toList, "cambada".toList], "EAÍCAMBADA".toList),
    (["fala".toList, "cambada".toList], "FALACAMBADA".toList),
    (["e".toList, "aí".toList, "galera".toList], "EAÍGALERA".toList),
    (["fala".toList, "galera".toList], "FALAGALERA".toList) ]

/-- `src/core/text.py` lines 78–79: the greeting substitution loop. -/
def applyGreetings (s : Str) : Str :=
  greetingPatterns.foldl (fun t p => greetingSub p.1 p.2 t) s

/-- One `re.sub(r'\s+' + w + r'\s+', ' ' + w + '- ', s, flags=re.IGNORECASE)`
pass (the rhythm-insertion rules of lines 95–98). -/
def pauseSubAux (w : Str) : Nat → Str → Str
  | _, [] => []
  | 0, s => s
  | fuel + 1, c :: rest =>
    if isPySpace c then
      match stripCI w ((c :: rest).dropWhile isPySpace) with
      | some rem =>
        match rem with
        | d :: _ =>
          if isPySpace d then
            ((' ' :: w) ++ ['-', ' ']) ++ pauseSubAux w fuel (rem.dropWhile isPySpace)
          else c :: pauseSubAux w fuel rest
        | [] => c :: pauseSubAux w fuel rest
      | none => c :: pauseSubAux w fuel rest
    else c :: pauseSubAux w fuel rest

def pauseSub (w s : Str) : Str :=
  pauseSubAux w s.length s

def pauseWords : List Str :=
  ["mas".toList, "e".toList, "então".toList, "porém".toList]

def applyPauses (s : Str) : Str :=
  pauseWords.foldl (fun t w => pauseSub w t) s

/-- Right word-boundary check of `\b` after a match of length `n`: the next
character, if any, is not a word character.  (Every term in the source's
tables consists of word characters, so `\b` reduces to this test.) -/
def boundaryAfterOk (n : Nat) (s : Str) : Bool :=
  match s.drop n with
  | [] => true
  | d :: _ => !isWordChar d

/-- One `re.sub(r'\b' + t + r'\b', rep, s)` pass, case-sensitive.  `prevWord`
records whether the character before the scan position is a word character
(after a match it is the term's last character, a word character). -/
def wordSubAux (t rep : Str) : Nat → Bool → Str → Str
  | _, _, [] => []
  | 0, _, s => s
  | fuel + 1, prevWord, c :: rest =>
    if !prevWord && prefOf t (c :: rest) && boundaryAfterOk t.length (c :: rest) then
      rep ++ wordSubAux t rep fuel true ((c :: rest).drop t.length)
    else c :: wordSubAux t rep fuel (isWordChar c) rest

def wordSub (t rep s : Str) : Str :=
  if t.isEmpty then s else wordSubAux t rep s.length false s

/-- One `re.sub(r'\b' + w + r'\b', rep, s, flags=re.IGNORECASE)` pass. -/
def wordSubCIAux (t rep : Str) : Nat → Bool → Str → Str
  | _, _, [] => []
  | 0, _, s => s
  | fuel + 1, prevWord, c :: rest =>
    if !prevWord && prefOfCI t (c :: rest) && boundaryAfterOk t.length (c :: rest) then
      rep ++ wordSubCIAux t rep fuel true ((c :: rest).drop t.length)
    else c :: wordSubCIAux t rep fuel (isWordChar c) rest

def wordSubCI (t rep s : Str) : Str :=
  if t.isEmpty then s else wordSubCIAux t rep s.length false s

/-- The `crypto_terms` table of `TextProcessor.__init__` (insertion order). -/
def cryptoTerms : List (Str × Str) :=
  [ ("Bitcoin".toList, "Bitcoim".toList),
    ("Ethereum".toList, "Etherium".toList),
    ("Cardano".toList, "Cardâno".toList),
    ("Solana".toList, "Solâna".toList),
    ("Polkadot".toList, "Polcadot".toList),
    ("Binance".toList, "Bináns".toList),
    ("Coinbase".toList, "Cóinbeis".toList),
    ("NFT".toList, "ÊnÊfeTê".toList),
    ("DeFi".toList, "DêFai".toList),
    ("staking".toList, "stêiking".toList),
    ("blockchain".toList, "blókcheim".toList),
    ("wallet".toList, "wólet".toList),
    ("token".toList, "tôken".toList),
    ("altcoin".toList, "ôltcoin".toList),
    ("mining".toList, "máining".toList),
    ("miner".toList, "máiner".toList) ]

/-- The `emphasis_words` table. -/
def emphasisWords : List Str :=
  [ "bombando".toList, "muito".toList, "super".toList, "mega".toList,
    "alta".toList, "subindo".toList, "disparou".toList, "explodiu".toList,
    "recorde".toList, "máxima".toList, "forte".toList, "incrível".toList,
    "enorme".toList, "gigante".toList, "absurdo".toList,
    "impressionante".toList, "surpreendente".toList,
    "extraordinário".toList, "fenomenal".toList, "espetacular".toList ]

/-- `src/core/text.py` lines 100–103: the crypto-term substitution loop. -/
def applyCryptoTerms (s : Str) : Str :=
  cryptoTerms.foldl (fun t p => wordSub p.1 p.2 t) s

/-- `src/core/text.py` lines 105–110: the emphasis-uppercasing loop; the
replacement is `word.upper()`. -/
def applyEmphasis (s : Str) : Str :=
  emphasisWords.foldl (fun t w => wordSubCI w (w.map upperPy) t) s

/-- `TextProcessor.optimize_for_speech`: the full rewrite pipeline in
source order (greetings; punctuation thinning; rhythm insertion; crypto
terms; emphasis), with the empty-input guard. -/
def optimizeForSpeech (s : Str) : Str :=
  if s = [] then s
  else applyEmphasis (applyCryptoTerms (applyPauses (punctThin (applyGreetings s))))

/-- Python `str.replace(pat, rep)`: replace every non-overlapping
occurrence, scanning left to right. -/
def pyReplaceAux (pat rep : Str) : Nat → Str → Str
  | _, [] => []
  | 0, s => s
  | fuel + 1, c :: rest =>
    if prefOf pat (c :: rest) then
      rep ++ pyReplaceAux pat rep fuel ((c :: rest).drop pat.length)
    else c :: pyReplaceAux pat rep fuel rest

def pyReplace (pat rep s : Str) : Str :=
  if pat.isEmpty then s else pyReplaceAux pat rep s.length s

/-- `subOf pat s` : `pat` occurs as a contiguous substring of `s`
(Python `pat in s`). -/
def subOf (pat : Str) : Str → Bool
  | [] => pat.isEmpty
  | c :: rest => prefOf pat (c :: rest) || subOf pat rest

/-- Python `str.capitalize()`: first character uppercased, rest lowered. -/
def capitalizePy : Str → Str
  | [] => []
  | c :: cs => upperPy c :: cs.map toLowerPy

/-- `optimize_text` from `src/core/utils.py` lines 183–250: prefix greeting
replacement, punctuation deletion (the loop over `',', '.', '!', '?',
'...', ';', ':'` amounts to deleting those six characters), plain
`str.replace` for the crypto terms, then the emphasis loop guarded by
`word in text.lower()`. -/
def optimizeText (s : Str) : Str :=
  if s = [] then s
  else
    let t1 :=
      if prefOf ("e aí cambada".toList) (s.map toLowerPy) then
        "EAÍCAMBADA".toList ++ s.drop ("e aí cambada".toList).length
      else if prefOf ("fala cambada".toList) (s.map toLowerPy) then
        "FALACAMBADA".toList ++ s.drop ("fala cambada".toList).length
      else s
    let t2 := t1.filter fun c =>
      !(c = ',' || c = '.' || c = '!' || c = '?' || c = ';' || c = ':')
    let t3 := cryptoTerms.foldl (fun t p => pyReplace p.1 p.2 t) t2
    emphasisWords.foldl (fun t w =>
      if subOf w (t.map toLowerPy) then
        pyReplace (capitalizePy w) (w.map upperPy) (pyReplace w (w.map upperPy) t)
      else t) t3

example : optimizeText "Bitcoins".toList = "Bitcoims".toList := by decide

example : punctThin ['.', '.', ' '] = ['.', ' '] := by decide

example : punctThin (punctThin ['.', '.', ' ']) = [' '] := by decide

example : optimizeForSpeech "Total: 1,234,567".toList = "Total  1234567".toList := by
  decide

example : punctThin "1,2,3".toList = "12,3".toList := by decide

/-! ## Line classes and reconstruction -/

/-- A line that is already stripped, non-blank, and not a numbered-item
line: the segmenter treats it as ordinary section content. -/
def isPlainLine (l : Str) : Bool :=
  decide (pyStrip l = l) && decide (l ≠ []) && !(isNumbered l)

/-- A stripped line matching the numbered-item pattern. -/
def isTitleLine (l : Str) : Bool :=
  decide (pyStrip l = l) && isNumbered l

/-- Concatenation, in order, of a parsed script's intro lines, each item's
title and body lines, and the outro lines. -/
def reconstruct (p : ParsedOrig) : List Str :=
  p.intro ++ (p.items.map (fun it => it.title :: it.content)).flatten ++ p.outro

/-- The stripped non-blank lines of a raw script, in order. -/
def scriptLines (s : Str) : List Str :=
  ((splitLines (pyStrip s)).map pyStrip).filter (fun l => decide (l ≠ []))

theorem isNumbered_ne_nil {l : Str} (h : isNumbered l = true) : l ≠ [] := by
  intro hnil
  subst hnil
  simp [isNumbered] at h

/-! ## Step lemmas for the segmenter -/

theorem segStep_plain_intro (i : List Str) (n : List NewsItem) (o : List Str)
    (cur : Option NewsItem) (l : Str)
    (h1 : pyStrip l = l) (h2 : l ≠ []) (h3 : isNumbered l = false) :
    segStep ⟨i, n, o, Sec.intro, cur⟩ l = ⟨i ++ [l], n, o, Sec.intro, cur⟩ := by
  simp [segStep, h1, h2, h3]

theorem segStep_plain_news_cons (i : List Str) (n : List NewsItem) (o : List Str)
    (t : Str) (cb : List Str) (l : Str)
    (h1 : pyStrip l = l) (h2 : l ≠ []) (h3 : isNumbered l = false)
    (hguard : ¬(2 ≤ n.length ∧ cb = [])) :
    segStep ⟨i, n, o, Sec.news, some ⟨t, cb⟩⟩ l =
      ⟨i, n, o, Sec.news, some ⟨t, cb ++ [l]⟩⟩ := by
  simp only [segStep, h1, h3]
  rw [if_neg (by simpa using h2), if_neg (by simp)]
  rw [if_neg hguard]

theorem segStep_plain_news_outro (i : List Str) (n : List NewsItem) (o : List Str)
    (t : Str) (l : Str)
    (h1 : pyStrip l = l) (h2 : l ≠ []) (h3 : isNumbered l = false)
    (hn : 2 ≤ n.length) :
    segStep ⟨i, n, o, Sec.news, some ⟨t, []⟩⟩ l =
      ⟨i, n, o ++ [l], Sec.outro, some ⟨t, []⟩⟩ := by
  simp only [segStep, h1, h3]
  rw [if_neg (by simpa using h2), if_neg (by simp)]
  rw [if_pos ⟨hn, trivial⟩]

theorem segStep_plain_outro (i : List Str) (n : List NewsItem) (o : List Str)
    (cur : Option NewsItem) (l : Str)
    (h1 : pyStrip l = l) (h2 : l ≠ []) (h3 : isNumbered l = false) :
    segStep ⟨i, n, o, Sec.outro, cur⟩ l = ⟨i, n, o ++ [l], Sec.outro, cur⟩ := by
  cases cur <;> simp [segStep, h1, h2, h3]

theorem segStep_title (i : List Str) (n : List NewsItem) (o : List Str)
    (sec : Sec) (cur : Option NewsItem) (l : Str)
    (h1 : pyStrip l = l) (h3 : isNumbered l = true) :
    segStep ⟨i, n, o, sec, cur⟩ l =
      ⟨i, n ++ (match cur with | some c => [c] | none => []), o,
        Sec.news, some ⟨l, []⟩⟩ := by
  have h2 : l ≠ [] := isNumbered_ne_nil h3
  simp [segStep, h1, h2, h3]

/-! ## Run lemmas: folding the step over a run of plain lines -/

theorem isPlainLine_spec {l : Str} (h : isPlainLine l = true) :
    pyStrip l = l ∧ l ≠ [] ∧ isNumbered l = false := by
  simp [isPlainLine] at h
  exact ⟨h.1.1, h.1.2, h.2⟩

theorem isTitleLine_spec {l : Str} (h : isTitleLine l = true) :
    pyStrip l = l ∧ isNumbered l = true := by
  simp [isTitleLine] at h
  exact h

theorem run_intro (ps : List Str) (hps : ∀ l ∈ ps, isPlainLine l = true)
    (i : List Str) (n : List NewsItem) (o : List Str) (cur : Option NewsItem) :
    ps.foldl segStep ⟨i, n, o, Sec.intro, cur⟩ = ⟨i ++ ps, n, o, Sec.intro, cur⟩ := by
  induction ps generalizing i with
  | nil => simp
  | cons p ps ih =>
    obtain ⟨h1, h2, h3⟩ := isPlainLine_spec (hps p (by simp))
    rw [List.foldl_cons, segStep_plain_intro i n o cur p h1 h2 h3,
      ih (fun l hl => hps l (by simp [hl])) (i ++ [p])]
    simp

theorem run_news_le1 (ps : List Str) (hps : ∀ l ∈ ps, isPlainLine l = true)
    (i : List Str) (n : List NewsItem) (o : List Str) (t : Str) (cb : List Str)
    (hn : n.length ≤ 1) :
    ps.foldl segStep ⟨i, n, o, Sec.news, some ⟨t, cb⟩⟩ =
      ⟨i, n, o, Sec.news, some ⟨t, cb ++ ps⟩⟩ := by
  induction ps generalizing cb with
  | nil => simp
  | cons p ps ih =>
    obtain ⟨h1, h2, h3⟩ := isPlainLine_spec (hps p (by simp))
    rw [List.foldl_cons,
      segStep_plain_news_cons i n o t cb p h1 h2 h3 (by omega),
      ih (fun l hl => hps l (by simp [hl])) (cb ++ [p])]
    simp

theorem run_news_nonempty (ps : List Str) (hps : ∀ l ∈ ps, isPlainLine l = true)
    (i : List Str) (n : List NewsItem) (o : List Str) (t : Str) (cb : List Str)
    (hc : cb ≠ []) :
    ps.foldl segStep ⟨i, n, o, Sec.news, some ⟨t, cb⟩⟩ =
      ⟨i, n, o, Sec.news, some ⟨t, cb ++ ps⟩⟩ := by
  induction ps generalizing cb with
  | nil => simp
  | cons p ps ih =>
    obtain ⟨h1, h2, h3⟩ := isPlainLine_spec (hps p (by simp))
    rw [List.foldl_cons,
      segStep_plain_news_cons i n o t cb p h1 h2 h3 (by simp [hc]),
      ih (fun l hl => hps l (by simp [hl])) (cb ++ [p]) (by simp)]
    simp

theorem run_outro (ps : List Str) (hps : ∀ l ∈ ps, isPlainLine l = true)
    (i : List Str) (n : List NewsItem) (o : List Str) (cur : Option NewsItem) :
    ps.foldl segStep ⟨i, n, o, Sec.outro, cur⟩ = ⟨i, n, o ++ ps, Sec.outro, cur⟩ := by
  induction ps generalizing o with
  | nil => simp
  | cons p ps ih =>
    obtain ⟨h1, h2, h3⟩ := isPlainLine_spec (hps p (by simp))
    rw [List.foldl_cons, segStep_plain_outro i n o cur p h1 h2 h3,
      ih (fun l hl => hps l (by simp [hl])) (o ++ [p])]
    simp

theorem segStep_sec_not_intro (st : SegState) (l : Str)
    (h : (segStep st l).sec = Sec.intro) : st.sec = Sec.intro := by
  obtain ⟨i, n, o, sec, cur⟩ := st
  by_cases hb : pyStrip l = []
  · simpa [segStep, hb] using h
  · by_cases hnum : isNumbered (pyStrip l) = true
    · simp [segStep, hb, hnum] at h
    · cases sec with
      | intro => rfl
      | news =>
        exfalso
        rcases cur with _ | ⟨⟨t, cb⟩⟩
        · simp [segStep, hb, hnum] at h
        · by_cases hg : 2 ≤ n.length ∧ cb = []
          · simp [segStep, hb, hnum, hg] at h
          · simp [segStep, hb, hnum, hg] at h
      | outro =>
        exfalso
        rcases cur with _ | ⟨⟨t, cb⟩⟩ <;> simp [segStep, hb, hnum] at h

theorem run_to_outro (l : Str) (ls : List Str)
    (hl : isPlainLine l = true) (hls : ∀ x ∈ ls, isPlainLine x = true)
    (i : List Str) (n : List NewsItem) (o : List Str) (t : Str)
    (hn : 2 ≤ n.length) :
    (l :: ls).foldl segStep ⟨i, n, o, Sec.news, some ⟨t, []⟩⟩ =
      ⟨i, n, o ++ l :: ls, Sec.outro, some ⟨t, []⟩⟩ := by
  obtain ⟨h1, h2, h3⟩ := isPlainLine_spec hl
  rw [List.foldl_cons, segStep_plain_news_outro i n o t l h1 h2 h3 hn,
    run_outro ls hls i n (o ++ [l]) (some ⟨t, []⟩)]
  simp

/-! ## Claim C3: terminality of the outro state -/

/-- C3, counterexample.  In the script
`"1. A\nb\n2. B\nc\n3. C\noutro1\n4. D\nbody"` the walk enters the outro at
`"outro1"`, yet the later numbered line `"4. D"` is not appended to the
outro — it starts a new news item, closing and pushing `"3. C"` (with empty
body) into the items list.  So the Outro state is not terminal. -/
theorem c3_counterexample :
    "outro1".toList ∈
      (parseScript "1. A\nb\n2. B\nc\n3. C\noutro1\n4. D\nbody".toList).outro ∧
    "4. D".toList ∉
      (parseScript "1. A\nb\n2. B\nc\n3. C\noutro1\n4. D\nbody".toList).outro ∧
    (parseScript "1. A\nb\n2. B\nc\n3. C\noutro1\n4. D\nbody".toList).items =
      [⟨"1. A".toList, ["b".toList]⟩, ⟨"2. B".toList, ["c".toList]⟩,
       ⟨"3. C".toList, []⟩] := by
  decide

/-- C3, amended: no transition of the segmenter's line walk returns to the
Intro state, and the Outro state absorbs every non-blank *non-numbered*
line; but a numbered line transitions Outro back to NewsItem, opening a new
item (so Outro is not terminal). -/
theorem c3_amended (st : SegState) (l : Str) :
    ((segStep st l).sec = Sec.intro → st.sec = Sec.intro) ∧
    (st.sec = Sec.outro → pyStrip l ≠ [] → isNumbered (pyStrip l) = false →
      segStep st l =
        ⟨st.introLines, st.newsItems, st.outroLines ++ [pyStrip l],
         Sec.outro, st.cur⟩) ∧
    (st.sec = Sec.outro → isNumbered (pyStrip l) = true →
      (segStep st l).sec = Sec.news ∧ (segStep st l).cur = some ⟨pyStrip l, []⟩) := by
  refine ⟨segStep_sec_not_intro st l, ?_, ?_⟩
  · intro hsec hb hnum
    obtain ⟨i, n, o, sec, cur⟩ := st
    subst hsec
    rcases cur with _ | ⟨⟨t, cb⟩⟩ <;> simp [segStep, hb, hnum]
  · intro hsec hnum
    obtain ⟨i, n, o, sec, cur⟩ := st
    subst hsec
    have hb : pyStrip l ≠ [] := isNumbered_ne_nil hnum
    rcases cur with _ | ⟨⟨t, cb⟩⟩ <;> simp [segStep, hb, hnum]

theorem c3_amended_witness :
    ((⟨[], [], [], Sec.intro, none⟩ : SegState).sec = Sec.intro) ∧
    segStep ⟨[], [], [], Sec.outro, none⟩ "x".toList =
      ⟨[], [], ["x".toList], Sec.outro, none⟩ ∧
    (segStep ⟨[], [], [], Sec.outro, none⟩ "1. y".toList).sec = Sec.news := by
  refine ⟨(c3_amended ⟨[], [], [], Sec.intro, none⟩ "x".toList).1 (by decide),
    ?_, ((c3_amended ⟨[], [], [], Sec.outro, none⟩ "1. y".toList).2.2 rfl (by decide)).1⟩
  have h := (c3_amended ⟨[], [], [], Sec.outro, none⟩ "x".toList).2.1 rfl
    (by decide) (by decide)
  simpa using h

/-! ## Claim C10: the non-empty-body check applies only to the final item -/

/-- C10: a numbered line closes the open item and pushes it to the items
list unconditionally (even with an empty body), whereas the finalization
step after the walk appends the still-open item only when its body is
non-empty.  Concretely: in `"1. A\n2. B\nx"` the item `"1. A"` is retained
with an empty body, while in `"1. A\n2. B"` the trailing item `"2. B"` is
dropped. -/
theorem c10_push_drop (st st2 : SegState) (l : Str) (c c2 : NewsItem)
    (hcur : st.cur = some c) (hnum : isNumbered (pyStrip l) = true)
    (hcur2 : st2.cur = some c2) :
    (segStep st l).newsItems = st.newsItems ++ [c] ∧
    (segStep st l).cur = some ⟨pyStrip l, []⟩ ∧
    finalizeItems st2 = st2.newsItems ++ (if c2.content = [] then [] else [c2]) ∧
    parseScript "1. A\n2. B\nx".toList =
      ⟨[], [⟨"1. A".toList, []⟩, ⟨"2. B".toList, ["x".toList]⟩], []⟩ ∧
    parseScript "1. A\n2. B".toList = ⟨[], [⟨"1. A".toList, []⟩], []⟩ := by
  obtain ⟨i, n, o, sec, cur⟩ := st
  obtain ⟨i2, n2, o2, sec2, cur2⟩ := st2
  simp only at hcur hcur2
  subst hcur hcur2
  have hb : pyStrip l ≠ [] := isNumbered_ne_nil hnum
  refine ⟨by simp [segStep, hb, hnum], by simp [segStep, hb, hnum], ?_,
    by decide, by decide⟩
  by_cases hc : c2.content = [] <;> simp [finalizeItems, hc]

theorem c10_push_drop_witness :
    (segStep ⟨[], [], [], Sec.news, some ⟨"1. A".toList, []⟩⟩ "2. B".toList).newsItems
      = [⟨"1. A".toList, []⟩] ∧
    finalizeItems ⟨[], [], [], Sec.news, some ⟨"2. B".toList, []⟩⟩ = [] := by
  have h := c10_push_drop ⟨[], [], [], Sec.news, some ⟨"1. A".toList, []⟩⟩
    ⟨[], [], [], Sec.news, some ⟨"2. B".toList, []⟩⟩ "2. B".toList
    ⟨"1. A".toList, []⟩ ⟨"2. B".toList, []⟩ rfl (by decide) rfl
  exact ⟨by simpa using h.1, by simpa using h.2.2.1⟩

/-! ## Claim C1: three well-formed items -/

/-- C1, counterexample.  The script `"1. A\na\n2. B\nb\n3. C\nc"` has exactly
three well-formed numbered item lines, each followed by one non-blank body
line, yet `parse_script` returns only 2 items: the two-completed-items
heuristic routes item 3's body line to the outro, and item 3, left with an
empty body, is dropped. -/
theorem c1_counterexample :
    (parseScript "1. A\na\n2. B\nb\n3. C\nc".toList).items.length = 2 ∧
    (parseScript "1. A\na\n2. B\nb\n3. C\nc".toList).items.length ≠ 3 ∧
    (parseScript "1. A\na\n2. B\nb\n3. C\nc".toList).outro = ["c".toList] := by
  decide

/-- C1, amended: for every script made of plain intro lines followed by
exactly three numbered title lines, each followed by at least one plain
body line, `parse_script` returns exactly the first two items, in parse
order (ordinals 1 and 2); the third item's body lines become the outro and
the third item is dropped. -/
theorem c1_amended (pre b1 b2 b3 : List Str) (t1 t2 t3 : Str)
    (hpre : ∀ l ∈ pre, isPlainLine l = true)
    (ht1 : isTitleLine t1 = true) (ht2 : isTitleLine t2 = true)
    (ht3 : isTitleLine t3 = true)
    (hb1 : b1 ≠ []) (hb2 : b2 ≠ []) (hb3 : b3 ≠ [])
    (hb1p : ∀ l ∈ b1, isPlainLine l = true)
    (hb2p : ∀ l ∈ b2, isPlainLine l = true)
    (hb3p : ∀ l ∈ b3, isPlainLine l = true) :
    parseLines (pre ++ t1 :: b1 ++ t2 :: b2 ++ t3 :: b3) =
      ⟨pre, [⟨t1, b1⟩, ⟨t2, b2⟩], b3⟩ := by
  obtain ⟨hs1, hn1⟩ := isTitleLine_spec ht1
  obtain ⟨hs2, hn2⟩ := isTitleLine_spec ht2
  obtain ⟨hs3, hn3⟩ := isTitleLine_spec ht3
  obtain ⟨l3, ls3, rfl⟩ := List.exists_cons_of_ne_nil hb3
  have s0 : pre.foldl segStep initState = ⟨pre, [], [], Sec.intro, none⟩ := by
    have h := run_intro pre hpre [] [] [] none
    simpa [initState] using h
  have s1 : segStep ⟨pre, [], [], Sec.intro, none⟩ t1 =
      ⟨pre, [], [], Sec.news, some ⟨t1, []⟩⟩ := by
    have h := segStep_title pre [] [] Sec.intro none t1 hs1 hn1
    simpa using h
  have s2 : b1.foldl segStep ⟨pre, [], [], Sec.news, some ⟨t1, []⟩⟩ =
      ⟨pre, [], [], Sec.news, some ⟨t1, b1⟩⟩ := by
    have h := run_news_le1 b1 hb1p pre [] [] t1 [] (by simp)
    simpa using h
  have s3 : segStep ⟨pre, [], [], Sec.news, some ⟨t1, b1⟩⟩ t2 =
      ⟨pre, [⟨t1, b1⟩], [], Sec.news, some ⟨t2, []⟩⟩ := by
    have h := segStep_title pre [] [] Sec.news (some ⟨t1, b1⟩) t2 hs2 hn2
    simpa using h
  have s4 : b2.foldl segStep ⟨pre, [⟨t1, b1⟩], [], Sec.news, some ⟨t2, []⟩⟩ =
      ⟨pre, [⟨t1, b1⟩], [], Sec.news, some ⟨t2, b2⟩⟩ := by
    have h := run_news_le1 b2 hb2p pre [⟨t1, b1⟩] [] t2 [] (by simp)
    simpa using h
  have s5 : segStep ⟨pre, [⟨t1, b1⟩], [], Sec.news, some ⟨t2, b2⟩⟩ t3 =
      ⟨pre, [⟨t1, b1⟩, ⟨t2, b2⟩], [], Sec.news, some ⟨t3, []⟩⟩ := by
    have h := segStep_title pre [⟨t1, b1⟩] [] Sec.news (some ⟨t2, b2⟩) t3 hs3 hn3
    simpa using h
  have s6 : (l3 :: ls3).foldl segStep
        ⟨pre, [⟨t1, b1⟩, ⟨t2, b2⟩], [], Sec.news, some ⟨t3, []⟩⟩ =
      ⟨pre, [⟨t1, b1⟩, ⟨t2, b2⟩], l3 :: ls3, Sec.outro, some ⟨t3, []⟩⟩ := by
    have h := run_to_outro l3 ls3 (hb3p l3 (by simp))
      (fun x hx => hb3p x (by simp [hx])) pre [⟨t1, b1⟩, ⟨t2, b2⟩] [] t3 (by simp)
    simpa using h
  unfold parseLines
  rw [show pre ++ t1 :: b1 ++ t2 :: b2 ++ t3 :: (l3 :: ls3) =
      pre ++ (t1 :: (b1 ++ (t2 :: (b2 ++ (t3 :: (l3 :: ls3)))))) by
    simp [List.append_assoc]]
  rw [List.foldl_append, s0, List.foldl_cons, s1, List.foldl_append, s2,
    List.foldl_cons, s3, List.foldl_append, s4, List.foldl_cons, s5, s6]
  simp [finalizeItems]

theorem c1_amended_witness :
    parseLines ["hey".toList, "1. A".toList, "a".toList, "2. B".toList,
      "b".toList, "3. C".toList, "c".toList] =
      ⟨["hey".toList], [⟨"1. A".toList, ["a".toList]⟩,
        ⟨"2. B".toList, ["b".toList]⟩], ["c".toList]⟩ := by
  have h := c1_amended ["hey".toList] ["a".toList] ["b".toList] ["c".toList]
    "1. A".toList "2. B".toList "3. C".toList
    (by decide) (by decide) (by decide) (by decide)
    (by decide) (by decide) (by decide) (by decide) (by decide) (by decide)
  simpa using h

/-! ## Claim C2: the end-to-end example of §8.6 -/

/-- The example script of §8.6 of the specification. -/
def exScript : Str :=
  ("Hey everyone, back with another roundup!\n\n1. Coin X up 10%\nPrice rose sharply today.\n\n2. Coin Y announces upgrade\nThe upgrade improves throughput.\n\nThanks for watching, see you next time!").toList

/-- C2, counterexample.  On the §8.6 example the farewell line does NOT end
up in the outro: with only one completed item when the farewell arrives,
the two-completed-items heuristic never fires, so the farewell line is
appended to item 2's body and the outro is empty. -/
theorem c2_counterexample :
    (parseScript exScript).outro = [] ∧
    "Thanks for watching, see you next time!".toList ∈
      ((parseScript exScript).items.getD 1 ⟨[], []⟩).content := by
  decide

/-- C2, amended: on the §8.6 example, `parse_script` returns the greeting
line as the intro, two items with the stated titles, item 1's body being its
single body line, item 2's body being its body line followed by the
farewell line, and an empty outro. -/
theorem c2_amended :
    parseScript exScript =
      ⟨["Hey everyone, back with another roundup!".toList],
       [⟨"1. Coin X up 10%".toList, ["Price rose sharply today.".toList]⟩,
        ⟨"2. Coin Y announces upgrade".toList,
         ["The upgrade improves throughput.".toList,
          "Thanks for watching, see you next time!".toList]⟩],
       []⟩ := by
  decide

/-! ## Claim C4: reconstruction of the source from the sections -/

/-- C4, counterexample.  For the script `"1. A"` the open item has no body
line, so it is dropped, and the title line `"1. A"` appears in no section:
concatenating intro, items and outro yields `[]`, not the script's single
non-blank line. -/
theorem c4_counterexample :
    reconstruct (parseScript "1. A".toList) = [] ∧
    scriptLines "1. A".toList = ["1. A".toList] ∧
    reconstruct (parseScript "1. A".toList) ≠ scriptLines "1. A".toList := by
  decide

/-- C4, amended: reconstruction is exact for scripts with at most two
numbered items — plain intro lines, then up to two title lines each with
plain body lines, the last item's body non-empty.  (With three or more
numbered lines, or a trailing body-less item, lines are dropped or
reordered, as the counterexample shows.) -/
theorem c4_amended (pre : List Str) (its : List (Str × List Str))
    (hpre : ∀ l ∈ pre, isPlainLine l = true)
    (hits : ∀ p ∈ its, isTitleLine p.1 = true ∧ ∀ l ∈ p.2, isPlainLine l = true)
    (hlen : its.length ≤ 2)
    (hlast : ∀ p, its.getLast? = some p → p.2 ≠ []) :
    reconstruct (parseLines (pre ++ (its.map fun p => p.1 :: p.2).flatten)) =
      pre ++ (its.map fun p => p.1 :: p.2).flatten := by
  have s0 : pre.foldl segStep initState = ⟨pre, [], [], Sec.intro, none⟩ := by
    have h := run_intro pre hpre [] [] [] none
    simpa [initState] using h
  rcases its with _ | ⟨⟨t1, b1⟩, its⟩
  · simp only [List.map_nil, List.flatten_nil, List.append_nil]
    unfold parseLines
    rw [s0]
    simp [finalizeItems, reconstruct]
  · obtain ⟨ht1, hb1p⟩ := hits (t1, b1) (by simp)
    obtain ⟨hs1, hn1⟩ := isTitleLine_spec ht1
    have s1 : segStep ⟨pre, [], [], Sec.intro, none⟩ t1 =
        ⟨pre, [], [], Sec.news, some ⟨t1, []⟩⟩ := by
      have h := segStep_title pre [] [] Sec.intro none t1 hs1 hn1
      simpa using h
    have s2 : b1.foldl segStep ⟨pre, [], [], Sec.news, some ⟨t1, []⟩⟩ =
        ⟨pre, [], [], Sec.news, some ⟨t1, b1⟩⟩ := by
      have h := run_news_le1 b1 hb1p pre [] [] t1 [] (by simp)
      simpa using h
    rcases its with _ | ⟨⟨t2, b2⟩, its⟩
    · have hb1 : b1 ≠ [] := hlast (t1, b1) (by simp)
      simp only [List.map_cons, List.map_nil, List.flatten_cons,
        List.flatten_nil, List.append_nil]
      unfold parseLines
      rw [show pre ++ (t1 :: b1) = pre ++ (t1 :: b1) from rfl,
        List.foldl_append, s0, List.foldl_cons, s1, s2]
      simp [finalizeItems, reconstruct, hb1]
    · rcases its with _ | ⟨p3, its⟩
      · obtain ⟨ht2, hb2p⟩ := hits (t2, b2) (by simp)
        obtain ⟨hs2, hn2⟩ := isTitleLine_spec ht2
        have hb2 : b2 ≠ [] := hlast (t2, b2) (by simp)
        have s3 : segStep ⟨pre, [], [], Sec.news, some ⟨t1, b1⟩⟩ t2 =
            ⟨pre, [⟨t1, b1⟩], [], Sec.news, some ⟨t2, []⟩⟩ := by
          have h := segStep_title pre [] [] Sec.news (some ⟨t1, b1⟩) t2 hs2 hn2
          simpa using h
        have s4 : b2.foldl segStep ⟨pre, [⟨t1, b1⟩], [], Sec.news, some ⟨t2, []⟩⟩ =
            ⟨pre, [⟨t1, b1⟩], [], Sec.news, some ⟨t2, b2⟩⟩ := by
          have h := run_news_le1 b2 hb2p pre [⟨t1, b1⟩] [] t2 [] (by simp)
          simpa using h
        simp only [List.map_cons, List.map_nil, List.flatten_cons,
          List.flatten_nil, List.append_nil]
        unfold parseLines
        rw [show pre ++ ((t1 :: b1) ++ (t2 :: b2)) =
            pre ++ (t1 :: (b1 ++ (t2 :: b2))) by simp,
          List.foldl_append, s0, List.foldl_cons, s1, List.foldl_append, s2,
          List.foldl_cons, s3, s4]
        simp [finalizeItems, reconstruct, hb2]
      · exfalso
        simp at hlen

theorem c4_amended_witness :
    reconstruct (parseLines ["hi".toList, "1. A".toList, "a".toList]) =
      ["hi".toList, "1. A".toList, "a".toList] := by
  have h := c4_amended ["hi".toList] [("1. A".toList, ["a".toList])]
    (by decide) (by decide) (by decide)
    (by intro p hp; simp [List.getLast?] at hp; subst hp; decide)
  simpa using h

/-! ## Claim C8: digit-grouping commas -/

/-- C8: rewriting `"Total: 1,234,567"` deletes the digit-grouping commas
without inserting spaces: the output is `"Total  1234567"` (the colon became
a space), which contains `"1234567"` contiguously. -/
theorem c8_digit_commas :
    optimizeForSpeech "Total: 1,234,567".toList = "Total  1234567".toList ∧
    subOf "1234567".toList (optimizeForSpeech "Total: 1,234,567".toList) = true := by
  constructor <;> decide

/-! ## Helper lemmas about the boundary-anchored substitution scan -/

theorem prefOf_length {p s : Str} (h : prefOf p s = true) : p.length ≤ s.length := by
  induction p generalizing s with
  | nil => simp
  | cons a ps ih =>
    cases s with
    | nil => simp [prefOf] at h
    | cons c cs =>
      by_cases hac : a = c
      · rw [prefOf, if_pos hac] at h
        simpa using ih h
      · rw [prefOf, if_neg hac] at h
        exact absurd h (by simp)

theorem prefOf_eq {p s : Str} (h : prefOf p s = true)
    (hlen : s.length ≤ p.length) : s = p := by
  induction p generalizing s with
  | nil =>
    cases s with
    | nil => rfl
    | cons c cs => simp at hlen
  | cons a ps ih =>
    cases s with
    | nil => simp [prefOf] at h
    | cons c cs =>
      by_cases hac : a = c
      · rw [prefOf, if_pos hac] at h
        have := ih h (by simpa using hlen)
        simp [this, hac]
      · rw [prefOf, if_neg hac] at h
        exact absurd h (by simp)

theorem prefOf_append_self (p r : Str) : prefOf p (p ++ r) = true := by
  induction p with
  | nil => simp [prefOf]
  | cons a ps ih => simp [prefOf, ih]

/-- The boundary-anchored scan leaves any string strictly shorter than the
term — or of equal length but different — unchanged. -/
theorem wordSubAux_id (t rep : Str) :
    ∀ (s : Str) (fuel : Nat) (prev : Bool),
      s.length ≤ t.length → s ≠ t → wordSubAux t rep fuel prev s = s := by
  intro s
  induction s with
  | nil => intro fuel prev _ _; cases fuel <;> simp [wordSubAux]
  | cons c rest ih =>
    intro fuel prev hlen hne
    cases fuel with
    | zero => simp [wordSubAux]
    | succ f =>
      cases hx : prefOf t (c :: rest) with
      | true => exact absurd (prefOf_eq hx hlen) hne
      | false =>
        have hrest : rest.length + 1 ≤ t.length := by simpa using hlen
        rw [wordSubAux]
        rw [show (!prev && prefOf t (c :: rest) &&
            boundaryAfterOk t.length (c :: rest)) = false by simp [hx]]
        simp only [Bool.false_eq_true, if_false]
        rw [ih f (isWordChar c) (by omega)
          (by intro hEq; rw [hEq] at hrest; omega)]

/-! ## Claim C9: case-sensitivity of the pronunciation substitution -/

/-- C9: for every term in the pronunciation table, any differently-cased
variant of the term (same letters up to case, not equal to the canonical
spelling) is left unchanged by the boundary-anchored substitution; in
particular the full rewriter leaves `"bitcoin"` unchanged. -/
theorem c9_case_sensitive :
    (∀ p ∈ cryptoTerms, ∀ v : Str,
      v.map toLowerPy = p.1.map toLowerPy → v ≠ p.1 →
      wordSub p.1 p.2 v = v) ∧
    optimizeForSpeech "bitcoin".toList = "bitcoin".toList := by
  constructor
  · intro p _ v hmap hne
    have hlenv : v.length = p.1.length := by
      have h := congrArg List.length hmap
      simpa using h
    unfold wordSub
    by_cases hemp : p.1.isEmpty = true
    · have h1 : p.1 = [] := by simpa using hemp
      have hv : v = [] := by
        rw [h1] at hlenv
        exact List.length_eq_zero.mp (by simpa using hlenv)
      exact absurd (hv.trans h1.symm) hne
    · rw [if_neg hemp]
      exact wordSubAux_id _ _ v v.length false (le_of_eq hlenv) hne
  · decide

theorem c9_case_sensitive_witness :
    wordSub "Bitcoin".toList "Bitcoim".toList "bitcoin".toList =
      "bitcoin".toList := by
  exact c9_case_sensitive.1 ("Bitcoin".toList, "Bitcoim".toList) (by decide)
    "bitcoin".toList (by decide) (by decide)

/-! ## No-op lemmas: each thinning pass is the identity when its pattern
does not occur -/

theorem removeBang_id {s : Str} (h1 : '!' ∉ s) (h2 : '?' ∉ s) :
    removeBang s = s := by
  apply List.filter_eq_self.mpr
  intro a ha
  have ha1 : a ≠ '!' := fun hEq => h1 (hEq ▸ ha)
  have ha2 : a ≠ '?' := fun hEq => h2 (hEq ▸ ha)
  simp [ha1, ha2]

theorem remEllAux_id {s : Str} (h : '.' ∉ s) : remEllAux 0 s = s := by
  induction s with
  | nil => simp [remEllAux]
  | cons c rest ih =>
    have hc : c ≠ '.' := fun hEq => h (by simp [hEq])
    have hrest : '.' ∉ rest := fun hm => h (List.mem_cons_of_mem c hm)
    simp [remEllAux, hc, ih hrest]

theorem removeEllipsis_id {s : Str} (h : '.' ∉ s) : removeEllipsis s = s :=
  remEllAux_id h

theorem semiColonSub_id {s : Str} (h1 : ';' ∉ s) (h2 : ':' ∉ s) :
    semiColonSub s = s := by
  have hmap : ∀ a ∈ s, (if a = ';' || a = ':' then ' ' else a) = a := by
    intro a ha
    have ha1 : a ≠ ';' := fun hEq => h1 (hEq ▸ ha)
    have ha2 : a ≠ ':' := fun hEq => h2 (hEq ▸ ha)
    simp [ha1, ha2]
  simpa [semiColonSub] using List.map_congr_left hmap

theorem sepSpaceAux_id {w : Char} {s : Str} (h : w ∉ s) :
    sepSpaceAux w false s = s := by
  induction s with
  | nil => simp [sepSpaceAux]
  | cons c rest ih =>
    have hc : ¬(c = w) := fun hEq => h (by simp [hEq])
    have hrest : w ∉ rest := fun hm => h (List.mem_cons_of_mem c hm)
    simp [sepSpaceAux, hc, ih hrest]

theorem digitCommaSub_id : ∀ s : Str, ',' ∉ s → digitCommaSub s = s := by
  intro s
  induction s with
  | nil => intro _; simp [digitCommaSub]
  | cons a s ih =>
    intro h
    have hs : ',' ∉ s := fun hm => h (List.mem_cons_of_mem a hm)
    cases s with
    | nil => simp [digitCommaSub]
    | cons b s2 =>
      cases s2 with
      | nil => simp [digitCommaSub]
      | cons d s3 =>
        have hb : ¬(b = ',') := fun hEq => h (by simp [hEq])
        rw [digitCommaSub]
        rw [show (b = ',' && isDigitC a && isDigitC d) = false by simp [hb]]
        simp only [Bool.false_eq_true, if_false]
        rw [ih hs]

/-! ## Character tracking through the first thinning pass -/

theorem mem_removeBang {a : Char} {s : Str} (h : a ∈ removeBang s) :
    a ∈ s ∧ a ≠ '!' ∧ a ≠ '?' := by
  have h1 := List.mem_filter.mp h
  refine ⟨h1.1, ?_, ?_⟩ <;> { intro hEq; subst hEq; simp at h1 }

theorem mem_semiColonSub {a : Char} {s : Str} (h : a ∈ semiColonSub s) :
    a = ' ' ∨ (a ∈ s ∧ a ≠ ';' ∧ a ≠ ':') := by
  obtain ⟨b, hb, hfb⟩ := List.mem_map.mp h
  by_cases hbc : b = ';' ∨ b = ':'
  · left
    rw [if_pos (by simpa using hbc)] at hfb
    exact hfb.symm
  · right
    rw [if_neg (by simpa using hbc)] at hfb
    subst hfb
    exact ⟨hb, fun hEq => hbc (Or.inl hEq), fun hEq => hbc (Or.inr hEq)⟩

/-! ## Claim C5: idempotence of punctuation thinning -/

/-- C5, counterexample.  Thinning `".. "` once collapses the second period
and the space into a space, leaving `". "`; thinning again collapses that
too, so two passes differ from one (punctuation *does* remain after the
first pass). -/
theorem c5_counterexample :
    punctThin ['.', '.', ' '] = ['.', ' '] ∧
    punctThin (punctThin ['.', '.', ' ']) = [' '] ∧
    punctThin (punctThin ['.', '.', ' ']) ≠ punctThin ['.', '.', ' '] := by
  refine ⟨by decide, by decide, by decide⟩

/-- C5, amended: punctuation thinning is idempotent on every string that
contains no period and no comma (the non-idempotence is confined to the
`". "`/`", "` collapse and digit-comma passes, whose matches can expose a
fresh match for a second pass). -/
theorem c5_amended (s : Str) (hdot : '.' ∉ s) (hcomma : ',' ∉ s) :
    punctThin (punctThin s) = punctThin s := by
  set a := removeBang s with ha
  have hdot_a : '.' ∉ a := fun h => hdot (mem_removeBang h).1
  have hcomma_a : ',' ∉ a := fun h => hcomma (mem_removeBang h).1
  have hbang_a : '!' ∉ a := fun h => (mem_removeBang h).2.1 rfl
  have hq_a : '?' ∉ a := fun h => (mem_removeBang h).2.2 rfl
  set u := semiColonSub a with hu
  have hdot_u : '.' ∉ u := by
    intro h
    rcases mem_semiColonSub h with h1 | ⟨h1, _, _⟩
    · exact absurd h1 (by decide)
    · exact hdot_a h1
  have hcomma_u : ',' ∉ u := by
    intro h
    rcases mem_semiColonSub h with h1 | ⟨h1, _, _⟩
    · exact absurd h1 (by decide)
    · exact hcomma_a h1
  have hbang_u : '!' ∉ u := by
    intro h
    rcases mem_semiColonSub h with h1 | ⟨h1, _, _⟩
    · exact absurd h1 (by decide)
    · exact hbang_a h1
  have hq_u : '?' ∉ u := by
    intro h
    rcases mem_semiColonSub h with h1 | ⟨h1, _, _⟩
    · exact absurd h1 (by decide)
    · exact hq_a h1
  have hsemi_u : ';' ∉ u := by
    intro h
    rcases mem_semiColonSub h with h1 | ⟨_, h2, _⟩
    · exact absurd h1 (by decide)
    · exact h2 rfl
  have hcolon_u : ':' ∉ u := by
    intro h
    rcases mem_semiColonSub h with h1 | ⟨_, _, h3⟩
    · exact absurd h1 (by decide)
    · exact h3 rfl
  have hfirst : punctThin s = u := by
    unfold punctThin
    rw [← ha, removeEllipsis_id hdot_a, ← hu, commaSpaceSub,
      sepSpaceAux_id hcomma_u, periodSpaceSub, sepSpaceAux_id hdot_u,
      digitCommaSub_id u hcomma_u]
  rw [hfirst]
  unfold punctThin
  rw [removeBang_id hbang_u hq_u, removeEllipsis_id hdot_u,
    semiColonSub_id hsemi_u hcolon_u, commaSpaceSub, sepSpaceAux_id hcomma_u,
    periodSpaceSub, sepSpaceAux_id hdot_u, digitCommaSub_id u hcomma_u]

theorem c5_amended_witness :
    punctThin (punctThin "a;b! c".toList) = punctThin "a;b! c".toList := by
  exact c5_amended "a;b! c".toList (by decide) (by decide)

/-! ## Claim C6: totality and silent no-ops -/

/-- C6: the embedded rewriter and segmenter are total functions — every
input string yields a result (the embedding is built from total scans, the
counterpart of "never raises") — and an unmatched pattern is a no-op: each
thinning pass returns its input unchanged when the pattern's trigger
characters do not occur. -/
theorem c6_total_noop (s : Str) :
    (∃ r, optimizeForSpeech s = r) ∧ (∃ r, optimizeText s = r) ∧
    (∃ p, parseScript s = p) ∧
    ('!' ∉ s → '?' ∉ s → removeBang s = s) ∧
    ('.' ∉ s → removeEllipsis s = s ∧ periodSpaceSub s = s) ∧
    (';' ∉ s → ':' ∉ s → semiColonSub s = s) ∧
    (',' ∉ s → commaSpaceSub s = s ∧ digitCommaSub s = s) := by
  refine ⟨⟨_, rfl⟩, ⟨_, rfl⟩, ⟨_, rfl⟩, removeBang_id,
    fun h => ⟨removeEllipsis_id h, sepSpaceAux_id h⟩, semiColonSub_id,
    fun h => ⟨sepSpaceAux_id h, digitCommaSub_id s h⟩⟩

theorem c6_total_noop_witness :
    removeBang "abc".toList = "abc".toList ∧
    removeEllipsis "abc".toList = "abc".toList ∧
    semiColonSub "abc".toList = "abc".toList ∧
    commaSpaceSub "abc".toList = "abc".toList := by
  have h := c6_total_noop "abc".toList
  exact ⟨h.2.2.2.1 (by decide) (by decide),
    (h.2.2.2.2.1 (by decide)).1,
    h.2.2.2.2.2.1 (by decide) (by decide),
    (h.2.2.2.2.2.2 (by decide)).1⟩

/-! ## Claim C7: whole-word boundary property -/

theorem wordSubAux_cons (t rep : Str) (f : Nat) (prev : Bool) (c : Char)
    (rest : Str) :
    wordSubAux t rep (f + 1) prev (c :: rest) =
      if !prev && prefOf t (c :: rest) && boundaryAfterOk t.length (c :: rest)
      then rep ++ wordSubAux t rep f true ((c :: rest).drop t.length)
      else c :: wordSubAux t rep f (isWordChar c) rest := by
  rfl

/-- A term followed immediately by a word character is not substituted by
the boundary-anchored scan, provided the term is not a rotation of itself
with the extra letter appended. -/
theorem wordSub_append_letter (t rep : Str) (c : Char) (hc : isWordChar c = true)
    (hne : t ≠ []) (htail : t.drop 1 ++ [c] ≠ t) :
    wordSub t rep (t ++ [c]) = t ++ [c] := by
  obtain ⟨t0, t', rfl⟩ := List.exists_cons_of_ne_nil hne
  unfold wordSub
  rw [if_neg (by simp)]
  show wordSubAux (t0 :: t') rep ((t' ++ [c]).length + 1) false
      (t0 :: (t' ++ [c])) = t0 :: (t' ++ [c])
  rw [wordSubAux_cons]
  have hb : boundaryAfterOk (t0 :: t').length (t0 :: (t' ++ [c])) = false := by
    unfold boundaryAfterOk
    rw [show t0 :: (t' ++ [c]) = (t0 :: t') ++ [c] from rfl, List.drop_left]
    simp [hc]
  rw [show (!false && prefOf (t0 :: t') (t0 :: (t' ++ [c])) &&
      boundaryAfterOk (t0 :: t').length (t0 :: (t' ++ [c]))) = false by
    rw [hb]; simp]
  simp only [Bool.false_eq_true, if_false]
  rw [wordSubAux_id (t0 :: t') rep (t' ++ [c]) (t' ++ [c]).length
    (isWordChar t0) (by simp) (by simpa using htail)]

/-- C7, counterexample.  `optimize_text` substitutes plain substrings: the
occurrence of `"Bitcoin"` inside the longer identifier `"Bitcoins"` IS
substituted, yielding `"Bitcoims"`. -/
theorem c7_counterexample :
    optimizeText "Bitcoins".toList = "Bitcoims".toList ∧
    optimizeText "Bitcoins".toList ≠ "Bitcoins".toList := by
  refine ⟨by decide, by decide⟩

/-- C7, amended: the whole-word property holds for the boundary-anchored
substitution of `optimize_for_speech` — for every term of the table, the
term immediately followed by any word character is left unchanged (and the
full rewriter leaves `"Bitcoins"` unchanged) — but not for `optimize_text`,
which replaces plain substrings. -/
theorem c7_amended :
    (∀ p ∈ cryptoTerms, ∀ c : Char, isWordChar c = true →
      wordSub p.1 p.2 (p.1 ++ [c]) = p.1 ++ [c]) ∧
    optimizeForSpeech "Bitcoins".toList = "Bitcoins".toList := by
  constructor
  · intro p hp c hc
    fin_cases hp <;>
      refine wordSub_append_letter _ _ c hc (by decide) fun h => ?_ <;>
      · have h1 := congrArg (List.take 1) h
        rw [List.take_append_of_le_length (by decide)] at h1
        exact absurd h1 (by decide)
  · decide

theorem c7_amended_witness :
    wordSub "Bitcoin".toList "Bitcoim".toList ("Bitcoin".toList ++ ['s']) =
      "Bitcoin".toList ++ ['s'] := by
  exact c7_amended.1 ("Bitcoin".toList, "Bitcoim".toList) (by decide) 's'
    (by decide)
